import Mathlib

/-!
Shallow embedding of the analytic k-space synthesis core of the
phantominator repository (phantominator/kspace.py and
phantominator/ct_shepp_logan.py), together with theorems settling the
frozen claims about its specification.

Machine floats are modelled by exact real numbers; numpy arrays of
samples by lists; the per-sample computation is embedded pointwise,
which is faithful because every sample position is processed
independently by the vectorized numpy code.
-/

set_option maxHeartbeats 1000000

namespace Phantominator

open scoped BigOperators

/-- The first-order Bessel function of the first kind, modelling
scipy.special.j1, via its standard power series
J1(x) = sum over n of (-1)^n (x/2)^(2n+1) / (n! (n+1)!). -/
noncomputable def j1 (x : ℝ) : ℝ :=
  tsum (fun n : ℕ => (-1) ^ n * (x / 2) ^ (2 * n + 1) / ((n.factorial : ℝ) * ((n + 1).factorial : ℝ)))

/-- Shorthand for the n-th term of the J1 power series. -/
noncomputable def j1Term (x : ℝ) (n : ℕ) : ℝ :=
  (-1) ^ n * (x / 2) ^ (2 * n + 1) / ((n.factorial : ℝ) * ((n + 1).factorial : ℝ))

/-- math.tau, as imported at the top of kspace.py. -/
noncomputable def tau : ℝ := 2 * Real.pi

/-- One row of the 2D ellipse parameter table, in the column order
unpacked by the line rho, A, B, xc, yc, alpha = np.asarray(E).T of
kspace.py. -/
structure Ellipse where
  rho : ℝ
  A : ℝ
  B : ℝ
  xc : ℝ
  yc : ℝ
  alpha : ℝ

/-- The helper _a of kspace.py: the direction-dependent effective
radius sqrt(A^2 cos^2(theta - alpha) + B^2 sin^2(theta - alpha)). -/
noncomputable def ellipse_a (A B theta alpha : ℝ) : ℝ :=
  Real.sqrt (A ^ 2 * Real.cos (theta - alpha) ^ 2 + B ^ 2 * Real.sin (theta - alpha) ^ 2)

/-- The function _kspace_ellipse of kspace.py at one sample point k and
one table row e.  The numpy mask np.isclose(k, 0) is abs(k) <= 1e-8
(atol 1e-8, and rtol multiplies abs(0) = 0); for such k the code writes
ret[zero] = .5 * tau * rho * A * B.  Otherwise, with kabs = abs(k),
theta = angle(k), t = abs(xc + 1j yc), gamma = angle(xc + 1j yc) and
athetak = _a(A, B, theta, alpha) * kabs, the code returns
exp(-1j tau kabs t cos(gamma - theta)) * rho A B * j1(tau athetak) / athetak,
inlined below in place of the intermediate local variables. -/
noncomputable def kspace_ellipse (k : ℂ) (e : Ellipse) : ℂ :=
  if Complex.abs k ≤ 1e-8 then
    ((0.5 * tau * (e.rho * e.A * e.B) : ℝ) : ℂ)
  else
    Complex.exp (-Complex.I * (tau : ℂ) * ((Complex.abs k : ℝ) : ℂ) *
        ((Complex.abs (⟨e.xc, e.yc⟩ : ℂ) : ℝ) : ℂ) *
        ((Real.cos (Complex.arg (⟨e.xc, e.yc⟩ : ℂ) - Complex.arg k) : ℝ) : ℂ)) *
      ((e.rho * e.A * e.B : ℝ) : ℂ) *
      ((j1 (tau * (ellipse_a e.A e.B (Complex.arg k) e.alpha * Complex.abs k)) : ℝ) : ℂ) /
      ((ellipse_a e.A e.B (Complex.arg k) e.alpha * Complex.abs k : ℝ) : ℂ)

/-- The no-coil synthesis of kspace_shepp_logan at one sample point:
np.sum(_kspace_ellipse(k, E), axis=-1), the sum over the ellipse axis. -/
noncomputable def kspace_ellipse_sum (E : List Ellipse) (k : ℂ) : ℂ :=
  (E.map (fun e => kspace_ellipse k e)).sum

/-- Error taxonomy of the spec (section 7); the code raises assertion
and index errors at the corresponding places. -/
inductive SynthError where
  | shapeError
  | capacityError
  | domainError
  | indexError
deriving DecidableEq

/-- The public no-coil entry point kspace_shepp_logan(kx, ky, E) with
both coordinate arrays given: the code first asserts
kx.shape == ky.shape (modelled as the length check, the arrays being
one-dimensional), forms k = kx + 1j ky, and returns the sum of ellipse
spectra at each sample.  No other validation of E is performed by the
code. -/
noncomputable def kspace_shepp_logan (kx ky : List ℝ) (E : List Ellipse) :
    Except SynthError (List ℂ) :=
  if kx.length = ky.length then
    Except.ok ((List.zipWith (fun x y => (⟨x, y⟩ : ℂ)) kx ky).map
      (fun k => kspace_ellipse_sum E k))
  else Except.error SynthError.shapeError

/-- The transformation named by claim C5: multiply a sample coordinate
by exp(1j phi), rotating it by the angle phi about the origin. -/
noncomputable def rotate_sample (phi : ℝ) (k : ℂ) : ℂ :=
  Complex.exp ((phi : ℂ) * Complex.I) * k

/-- The ellipse transformation as written in claim C5: add phi to the
rotation angle of the record, leaving the center untouched. -/
def rotate_alpha_only (phi : ℝ) (e : Ellipse) : Ellipse :=
  ⟨e.rho, e.A, e.B, e.xc, e.yc, e.alpha + phi⟩

/-- Genuine rotation of an ellipse record by phi about the origin:
the rotation angle advances by phi and the center is rotated by phi. -/
noncomputable def rotate_ellipse (phi : ℝ) (e : Ellipse) : Ellipse :=
  ⟨e.rho, e.A, e.B,
    e.xc * Real.cos phi - e.yc * Real.sin phi,
    e.xc * Real.sin phi + e.yc * Real.cos phi,
    e.alpha + phi⟩

/-- Coordinate (argument-free) form of _kspace_ellipse, used as a
proof vehicle: the polar quantities kabs cos(theta), kabs sin(theta),
kabs t cos(gamma - theta) of the source are rewritten through the real
and imaginary parts of k; proved equal to kspace_ellipse below. -/
noncomputable def kspace_ellipse_coord (k : ℂ) (e : Ellipse) : ℂ :=
  if Complex.abs k ≤ 1e-8 then
    ((0.5 * tau * (e.rho * e.A * e.B) : ℝ) : ℂ)
  else
    Complex.exp (-Complex.I * (tau : ℂ) * ((e.xc * k.re + e.yc * k.im : ℝ) : ℂ)) *
      ((e.rho * e.A * e.B : ℝ) : ℂ) *
      ((j1 (tau * Real.sqrt
          (e.A ^ 2 * (k.re * Real.cos e.alpha + k.im * Real.sin e.alpha) ^ 2 +
            e.B ^ 2 * (k.im * Real.cos e.alpha - k.re * Real.sin e.alpha) ^ 2)) : ℝ) : ℂ) /
      ((Real.sqrt
          (e.A ^ 2 * (k.re * Real.cos e.alpha + k.im * Real.sin e.alpha) ^ 2 +
            e.B ^ 2 * (k.im * Real.cos e.alpha - k.re * Real.sin e.alpha) ^ 2) : ℝ) : ℂ)

/-- The guarded Bessel kernel of MRDataEllipseSinusoidal: the code
masks ind_big = np.abs(modw) >= 1e-10 and uses j1(m)/m there, with the
second-order Taylor fallback .5 (1 - (m/2)^2 / 2) elsewhere. -/
noncomputable def besselG (m : ℝ) : ℝ :=
  if 1e-10 ≤ |m| then j1 m / m else 0.5 * (1 - (m / 2) ^ 2 / 2)

/-- The rotation matrix Rmat built in _kspace_ellipse_sens. -/
noncomputable def Rmat (theta : ℝ) : Matrix (Fin 2) (Fin 2) ℝ :=
  !![Real.cos theta, -Real.sin theta; Real.sin theta, Real.cos theta]

/-- Entry i of np.linspace(-floor(L/2), floor((L-1)/2), L): since
floor(L/2) + floor((L-1)/2) = L - 1 the spacing is exactly 1, so the
entries are the integers i - floor(L/2). -/
def gridVal (L : ℕ) (i : ℕ) : ℝ :=
  (i : ℝ) - ((L / 2 : ℕ) : ℝ)

/-- MRDataEllipseSinusoidal of kspace.py for one coil row and one
sample k.  N = coeffs.shape[1], L = floor(sqrt(N)); the meshgrid of
the centered linspace followed by flatten(C) visits, at flat index n,
the pair (grid(n / L), grid(n mod L)); both components are divided
by 2 and shifted by the sample coordinate.  wu = -tau * D R^T kxy,
modw = abs(wu0 + 1j wu1), and the result is
tau det(D) sum_n coeff_n exp(1j tau (xc kx_n + yc ky_n)) G(modw_n). -/
noncomputable def MRDataEllipseSinusoidal {N : ℕ}
    (Dmat Rm : Matrix (Fin 2) (Fin 2) ℝ) (xc yc : ℝ)
    (coeffRow : Fin N → ℂ) (k : ℂ) : ℂ :=
  let L := Nat.sqrt N
  let kxv : Fin N → ℝ := fun n => gridVal L ((n : ℕ) / L) / 2 + k.re
  let kyv : Fin N → ℝ := fun n => gridVal L ((n : ℕ) % L) / 2 + k.im
  let wu : Fin N → Fin 2 → ℝ :=
    fun n => (-tau) • (Dmat * Rm.transpose).mulVec ![kxv n, kyv n]
  let modw : Fin N → ℝ := fun n => Complex.abs ⟨wu n 0, wu n 1⟩
  ((tau : ℝ) : ℂ) * ((Dmat.det : ℝ) : ℂ) * ∑ n : Fin N,
    coeffRow n *
      Complex.exp (Complex.I * ((tau : ℝ) : ℂ) * ((xc * kxv n + yc * kyv n : ℝ) : ℂ)) *
      ((besselG (modw n) : ℝ) : ℂ)

/-- _kspace_ellipse_sens of kspace.py for one coil row: the width
vector is np.array([B, A]), Dmat = np.diag(width / 2) (so B/2 first),
and the ellipse spectrum with sensitivity folded in is
rho * MRDataEllipseSinusoidal(k, Dmat, Rmat, xc, yc, coeffs). -/
noncomputable def kspace_ellipse_sens {N : ℕ} (k : ℂ) (xc yc rho A B theta : ℝ)
    (coeffRow : Fin N → ℂ) : ℂ :=
  ((rho : ℝ) : ℂ) *
    MRDataEllipseSinusoidal (Matrix.diagonal ![B / 2, A / 2]) (Rmat theta)
      xc yc coeffRow k

/-- The per-coil contribution exactly as worded by claim C2, for
comparison with the code: D = diag(semi-axes / 2) with the semi-axes
in the order (A, B), basis frequencies (u_n, v_n) drawn from the
centered integer grid (not halved), shifted = basis + k,
w = -2 pi D R^T shifted, and the contribution
rho 2 pi det(D) sum_n coeff_n exp(1j 2 pi (xc sx_n + yc sy_n)) G(abs w). -/
noncomputable def spec_sens_contribution {N : ℕ} (k : ℂ) (xc yc rho A B theta : ℝ)
    (coeffRow : Fin N → ℂ) : ℂ :=
  let L := Nat.sqrt N
  let su : Fin N → ℝ := fun n => gridVal L ((n : ℕ) / L) + k.re
  let sv : Fin N → ℝ := fun n => gridVal L ((n : ℕ) % L) + k.im
  let w0 : Fin N → ℝ :=
    fun n => -tau * (A / 2) * (Real.cos theta * su n + Real.sin theta * sv n)
  let w1 : Fin N → ℝ :=
    fun n => -tau * (B / 2) * (-Real.sin theta * su n + Real.cos theta * sv n)
  ((rho : ℝ) : ℂ) * ((tau : ℝ) : ℂ) * (((A / 2) * (B / 2) : ℝ) : ℂ) * ∑ n : Fin N,
    coeffRow n *
      Complex.exp (Complex.I * ((tau : ℝ) : ℂ) * ((xc * su n + yc * sv n : ℝ) : ℂ)) *
      ((besselG (Real.sqrt (w0 n ^ 2 + w1 n ^ 2)) : ℝ) : ℂ)

/-- The per-coil contribution in the wording of claim C2 but with the
two details corrected to what the code does: D = diag((B, A) / 2),
that is B/2 in the first diagonal slot, and the basis frequencies are
the centered integer grid divided by 2 (half-integer steps). -/
noncomputable def spec_sens_contribution_corrected {N : ℕ} (k : ℂ)
    (xc yc rho A B theta : ℝ) (coeffRow : Fin N → ℂ) : ℂ :=
  let L := Nat.sqrt N
  let su : Fin N → ℝ := fun n => gridVal L ((n : ℕ) / L) / 2 + k.re
  let sv : Fin N → ℝ := fun n => gridVal L ((n : ℕ) % L) / 2 + k.im
  let w0 : Fin N → ℝ :=
    fun n => -tau * ((B / 2) * (Real.cos theta * su n + Real.sin theta * sv n))
  let w1 : Fin N → ℝ :=
    fun n => -tau * ((A / 2) * (-Real.sin theta * su n + Real.cos theta * sv n))
  ((rho : ℝ) : ℂ) * ((tau : ℝ) : ℂ) * (((B / 2) * (A / 2) : ℝ) : ℂ) * ∑ n : Fin N,
    coeffRow n *
      Complex.exp (Complex.I * ((tau : ℝ) : ℂ) * ((xc * su n + yc * sv n : ℝ) : ℂ)) *
      ((besselG (Real.sqrt (w0 n ^ 2 + w1 n ^ 2)) : ℝ) : ℂ)

/-- The coil branch of kspace_shepp_logan (kspace.py lines 61-93).
Modelled from the spec: the module phantominator/sens_coeffs.py is not
under src, so its two members are modelled as parameters, faithful to
the spec wording - _sens_info returns a fixed coil capacity (maxCoil)
and coefficient budget (numCoeff), and _sens_coeffs(cc) is a
deterministic per-coil coefficient vector (sens_coeffs).  The code
asserts the shape check first, then ncoil <= MAX_COIL before any
k-space value is computed, then accumulates, for each sample and coil,
the sum over ellipses of _kspace_ellipse_sens evaluated at the center
coordinates (ys/2, -xs/2). -/
noncomputable def kspace_shepp_logan_coils {numCoeff : ℕ} (kx ky : List ℝ)
    (E : List Ellipse) (ncoil maxCoil : ℕ)
    (sens_coeffs : ℕ → Fin numCoeff → ℂ) :
    Except SynthError (List (List ℂ)) :=
  if kx.length = ky.length then
    if ncoil ≤ maxCoil then
      Except.ok ((List.zipWith (fun x y => (⟨x, y⟩ : ℂ)) kx ky).map (fun k =>
        (List.range ncoil).map (fun cc =>
          (E.map (fun e =>
            kspace_ellipse_sens k (e.yc / 2) (-e.xc / 2) e.rho e.A e.B e.alpha
              (sens_coeffs cc))).sum)))
    else Except.error SynthError.capacityError
  else Except.error SynthError.shapeError

/-- One pixel of ct_shepp_logan_2d(M, N, ...) over a caller-supplied
raw parameter table (a list of rows of reals, modelling a rectangular
numpy matrix).  The code performs no column-count validation: it
extracts columns 0 through 5 (which numpy can only do when every row
has at least 6 entries, the guard below; otherwise an index error is
raised), builds the meshgrid point x = linspace(-1,1,N)[j],
y = linspace(-1,1,M)[i], and adds grey over the ellipses whose
membership inequality holds at that point.  Columns beyond the sixth
are never read. -/
noncomputable def ct_shepp_logan_2d_pixel (M N : ℕ) (E : List (List ℝ)) (i j : ℕ) :
    Except SynthError ℝ :=
  if ∀ r ∈ E, 6 ≤ r.length then
    Except.ok ((E.map (fun r =>
      let grey := r.getD 0 0
      let a := r.getD 1 0
      let b := r.getD 2 0
      let xc := r.getD 3 0
      let yc := r.getD 4 0
      let th := r.getD 5 0
      let x : ℝ := -1 + 2 * (j : ℝ) / ((N : ℝ) - 1)
      let y : ℝ := -1 + 2 * (i : ℝ) / ((M : ℝ) - 1)
      if ((x - xc) * Real.cos th + (y - yc) * Real.sin th) ^ 2 / a ^ 2 +
          ((x - xc) * Real.sin th - (y - yc) * Real.cos th) ^ 2 / b ^ 2 ≤ 1
      then grey else 0)).sum)
  else Except.error SynthError.indexError

/-- np.deg2rad: degrees times pi / 180. -/
noncomputable def deg2rad (x : ℝ) : ℝ := x * Real.pi / 180

/-- _shepp_logan_params_2d: the (10, 6) table assembled column by
column, columns 0-4 as literal lists and column 5 via np.deg2rad. -/
noncomputable def shepp_logan_params_2d : Fin 10 → Fin 6 → ℝ := fun i j =>
  ![![2, -0.98, -0.02, -0.02, 0.01, 0.01, 0.01, 0.01, 0.01, 0.01],
    ![0.69, 0.6624, 0.11, 0.16, 0.21, 0.046, 0.046, 0.046, 0.023, 0.023],
    ![0.92, 0.874, 0.31, 0.41, 0.25, 0.046, 0.046, 0.023, 0.023, 0.046],
    ![0, 0, 0.22, -0.22, 0, 0, 0, -0.08, 0, 0.06],
    ![0, -0.0184, 0, 0, 0.35, 0.1, -0.1, -0.605, -0.605, -0.605],
    ![deg2rad 0, deg2rad 0, deg2rad (-18), deg2rad 18, deg2rad 0,
      deg2rad 0, deg2rad 0, deg2rad 0, deg2rad 0, deg2rad 0]] j i

/-- _modified_shepp_logan_params_2d: the original table with column 0
overwritten by the modified grey values. -/
noncomputable def modified_shepp_logan_params_2d : Fin 10 → Fin 6 → ℝ := fun i j =>
  if j = 0 then ![1, -0.8, -0.2, -0.2, 0.1, 0.1, 0.1, 0.1, 0.1, 0.1] i
  else shepp_logan_params_2d i j

/-- _shepp_logan_params_3d: the (10, 8) table assembled row by row. -/
noncomputable def shepp_logan_params_3d : Fin 10 → Fin 8 → ℝ := fun i =>
  ![![2, 0.69, 0.92, 0.9, 0, 0, 0, 0],
    ![-0.8, 0.6624, 0.874, 0.88, 0, 0, 0, 0],
    ![-0.2, 0.41, 0.16, 0.21, -0.22, 0, -0.25, 3 * Real.pi / 5],
    ![-0.2, 0.31, 0.11, 0.22, 0.22, 0, -0.25, 2 * Real.pi / 5],
    ![0.2, 0.21, 0.25, 0.5, 0, 0.35, -0.25, 0],
    ![0.2, 0.046, 0.046, 0.046, 0, 0.1, -0.25, 0],
    ![0.1, 0.046, 0.023, 0.02, -0.08, -0.65, -0.25, 0],
    ![0.1, 0.046, 0.023, 0.02, 0.06, -0.65, -0.25, Real.pi / 2],
    ![0.2, 0.056, 0.04, 0.1, 0.06, -0.105, 0.625, Real.pi / 2],
    ![-0.2, 0.056, 0.056, 0.1, 0, 0.1, 0.625, 0]] i

/-- _modified_shepp_logan_params_3d: the original 3D table with
column 0 overwritten by the modified grey values. -/
noncomputable def modified_shepp_logan_params_3d : Fin 10 → Fin 8 → ℝ := fun i j =>
  if j = 0 then ![1, -0.8, -0.2, -0.2, 0.1, 0.1, 0.1, 0.1, 0.1, 0.1] i
  else shepp_logan_params_3d i j

/-! ## Lemmas about the Bessel series -/

lemma j1_eq_tsum (x : ℝ) : j1 x = tsum (fun n : ℕ => j1Term x n) := rfl

lemma abs_j1Term_le (x : ℝ) (hx0 : 0 ≤ x) (hx1 : x ≤ 1) (n : ℕ) :
    |j1Term x n| ≤ (x / 2) * (1 / 4) ^ n := by
  have hfac : (1 : ℝ) ≤ (n.factorial : ℝ) * ((n + 1).factorial : ℝ) := by
    have h1 : (1 : ℝ) ≤ (n.factorial : ℝ) := by
      exact_mod_cast Nat.one_le_iff_ne_zero.mpr (Nat.factorial_ne_zero n)
    have h2 : (1 : ℝ) ≤ ((n + 1).factorial : ℝ) := by
      exact_mod_cast Nat.one_le_iff_ne_zero.mpr (Nat.factorial_ne_zero (n + 1))
    nlinarith
  have hx2 : 0 ≤ x / 2 := by linarith
  have hpow : (x / 2) ^ (2 * n + 1) ≤ (x / 2) * (1 / 4) ^ n := by
    have h : (x / 2) ^ (2 * n + 1) = (x / 2) * ((x / 2) ^ 2) ^ n := by
      rw [← pow_mul]; ring
    rw [h]
    have hsq : (x / 2) ^ 2 ≤ 1 / 4 := by nlinarith
    have hsq0 : 0 ≤ (x / 2) ^ 2 := sq_nonneg _
    have := pow_le_pow_left₀ hsq0 hsq n
    nlinarith [pow_nonneg hsq0 n]
  have habs : |j1Term x n| =
      (x / 2) ^ (2 * n + 1) / ((n.factorial : ℝ) * ((n + 1).factorial : ℝ)) := by
    rw [j1Term, abs_div, abs_mul, abs_pow, abs_neg, abs_one, one_pow, one_mul,
      abs_pow, abs_of_nonneg hx2, abs_of_nonneg (by positivity :
        (0 : ℝ) ≤ (n.factorial : ℝ) * ((n + 1).factorial : ℝ))]
  rw [habs]
  calc (x / 2) ^ (2 * n + 1) / ((n.factorial : ℝ) * ((n + 1).factorial : ℝ))
      ≤ (x / 2) ^ (2 * n + 1) / 1 := by
        apply div_le_div_of_nonneg_left _ _ hfac <;> first
        | exact pow_nonneg hx2 _
        | norm_num
    _ = (x / 2) ^ (2 * n + 1) := by norm_num
    _ ≤ (x / 2) * (1 / 4) ^ n := hpow

lemma summable_abs_j1Term (x : ℝ) (hx0 : 0 ≤ x) (hx1 : x ≤ 1) :
    Summable (fun n : ℕ => |j1Term x n|) := by
  have hgeo : Summable (fun n : ℕ => (x / 2) * (1 / 4) ^ n) :=
    (summable_geometric_of_lt_one (by norm_num) (by norm_num)).mul_left (x / 2)
  exact Summable.of_nonneg_of_le (fun n => abs_nonneg _) (abs_j1Term_le x hx0 hx1) hgeo

lemma summable_j1Term (x : ℝ) (hx0 : 0 ≤ x) (hx1 : x ≤ 1) :
    Summable (j1Term x) := by
  have habs := summable_abs_j1Term x hx0 hx1
  exact Summable.of_norm (by simpa [Real.norm_eq_abs] using habs)

/-- On (0, 1] the Bessel series is dominated by its first term x/2;
the tail is at most x/6, so J1 is strictly positive there. -/
lemma j1_pos (x : ℝ) (hx0 : 0 < x) (hx1 : x ≤ 1) : 0 < j1 x := by
  have hx0' : (0 : ℝ) ≤ x := le_of_lt hx0
  have hsum := summable_j1Term x hx0' hx1
  have hsplit : j1 x = j1Term x 0 + tsum (fun n : ℕ => j1Term x (n + 1)) := by
    rw [j1_eq_tsum]; exact tsum_eq_zero_add hsum
  have hterm0 : j1Term x 0 = x / 2 := by
    simp [j1Term]
  have hsum1 : Summable (fun n : ℕ => j1Term x (n + 1)) :=
    (summable_nat_add_iff 1).mpr hsum
  have hgeo : Summable (fun n : ℕ => (x / 2) * (1 / 4) ^ (n + 1)) := by
    have : Summable (fun n : ℕ => (x / 2) * (1 / 4) ^ n) :=
      (summable_geometric_of_lt_one (by norm_num) (by norm_num)).mul_left (x / 2)
    exact (summable_nat_add_iff 1).mpr this
  have h3 : tsum (fun n : ℕ => (x / 2) * (1 / 4 : ℝ) ^ (n + 1)) = x / 6 := by
    have hpow : ∀ n : ℕ, (x / 2) * (1 / 4 : ℝ) ^ (n + 1) = (x / 8) * (1 / 4) ^ n := by
      intro n; rw [pow_succ]; ring
    calc tsum (fun n : ℕ => (x / 2) * (1 / 4 : ℝ) ^ (n + 1))
        = tsum (fun n : ℕ => (x / 8) * (1 / 4 : ℝ) ^ n) := tsum_congr hpow
      _ = (x / 8) * tsum (fun n : ℕ => (1 / 4 : ℝ) ^ n) := tsum_mul_left
      _ = (x / 8) * (1 - 1 / 4)⁻¹ := by
          rw [tsum_geometric_of_lt_one (by norm_num) (by norm_num)]
      _ = x / 6 := by
          rw [show ((1 : ℝ) - 1 / 4)⁻¹ = 4 / 3 by norm_num]; ring
  have hneg : tsum (fun n : ℕ => -j1Term x (n + 1)) ≤
      tsum (fun n : ℕ => (x / 2) * (1 / 4) ^ (n + 1)) := by
    refine tsum_le_tsum (fun n => ?_) hsum1.neg hgeo
    have h1 : -j1Term x (n + 1) ≤ |j1Term x (n + 1)| := neg_le_abs _
    exact le_trans h1 (abs_j1Term_le x hx0' hx1 (n + 1))
  rw [tsum_neg, h3] at hneg
  rw [hsplit, hterm0]
  linarith

/-! ## Lemmas about the ellipse spectrum -/

lemma abs_zero_le_tol : Complex.abs 0 ≤ 1e-8 := by
  rw [map_zero]; norm_num

lemma kspace_ellipse_zero (e : Ellipse) :
    kspace_ellipse 0 e = ((0.5 * tau * (e.rho * e.A * e.B) : ℝ) : ℂ) := by
  rw [kspace_ellipse, if_pos abs_zero_le_tol]

/-- Negating the density negates the spectrum of a single ellipse
(both branches of _kspace_ellipse scale linearly in rho). -/
lemma kspace_ellipse_neg_rho (k : ℂ) (rho A B xc yc alpha : ℝ) :
    kspace_ellipse k ⟨-rho, A, B, xc, yc, alpha⟩ =
      -kspace_ellipse k ⟨rho, A, B, xc, yc, alpha⟩ := by
  by_cases hk : Complex.abs k ≤ 1e-8
  · rw [kspace_ellipse, kspace_ellipse, if_pos hk, if_pos hk]
    push_cast
    ring
  · rw [kspace_ellipse, kspace_ellipse, if_neg hk, if_neg hk]
    push_cast
    ring

/-- Appending two tables splits the per-sample sum. -/
lemma kspace_ellipse_sum_append (E1 E2 : List Ellipse) (k : ℂ) :
    kspace_ellipse_sum (E1 ++ E2) k =
      kspace_ellipse_sum E1 k + kspace_ellipse_sum E2 k := by
  simp [kspace_ellipse_sum, List.map_append, List.sum_append]

lemma abs_mul_cos_arg (k : ℂ) (hk : k ≠ 0) :
    Complex.abs k * Real.cos (Complex.arg k) = k.re := by
  have h : (Complex.abs k : ℝ) ≠ 0 := Complex.abs.ne_zero hk
  rw [Complex.cos_arg hk, mul_comm, div_mul_cancel₀ _ h]

lemma abs_mul_sin_arg (k : ℂ) :
    Complex.abs k * Real.sin (Complex.arg k) = k.im := by
  rcases eq_or_ne k 0 with rfl | hk
  · simp
  · have h : (Complex.abs k : ℝ) ≠ 0 := Complex.abs.ne_zero hk
    rw [Complex.sin_arg, mul_comm, div_mul_cancel₀ _ h]

/-- kabs t cos(gamma - theta) in coordinates: the phase argument of
the source equals xc k.re + yc k.im. -/
lemma abs_mul_abs_mul_cos_arg_sub (c k : ℂ) (hk : k ≠ 0) :
    Complex.abs c * Complex.abs k *
      Real.cos (Complex.arg c - Complex.arg k) = c.re * k.re + c.im * k.im := by
  rcases eq_or_ne c 0 with rfl | hc
  · simp
  · rw [Real.cos_sub]
    have h1 := abs_mul_cos_arg c hc
    have h2 := abs_mul_sin_arg c
    have h3 := abs_mul_cos_arg k hk
    have h4 := abs_mul_sin_arg k
    calc Complex.abs c * Complex.abs k *
        (Real.cos (Complex.arg c) * Real.cos (Complex.arg k) +
          Real.sin (Complex.arg c) * Real.sin (Complex.arg k))
        = (Complex.abs c * Real.cos (Complex.arg c)) *
            (Complex.abs k * Real.cos (Complex.arg k)) +
          (Complex.abs c * Real.sin (Complex.arg c)) *
            (Complex.abs k * Real.sin (Complex.arg k)) := by ring
      _ = c.re * k.re + c.im * k.im := by rw [h1, h2, h3, h4]

/-- The oriented radius times kabs, _a(A,B,theta,alpha) * kabs, in
coordinates. -/
lemma ellipse_a_mul_abs (A B alpha : ℝ) (k : ℂ) (hk : k ≠ 0) :
    ellipse_a A B (Complex.arg k) alpha * Complex.abs k =
      Real.sqrt (A ^ 2 * (k.re * Real.cos alpha + k.im * Real.sin alpha) ^ 2 +
        B ^ 2 * (k.im * Real.cos alpha - k.re * Real.sin alpha) ^ 2) := by
  have hc : Complex.abs k * Real.cos (Complex.arg k - alpha) =
      k.re * Real.cos alpha + k.im * Real.sin alpha := by
    rw [Real.cos_sub]
    have h1 := abs_mul_cos_arg k hk
    have h2 := abs_mul_sin_arg k
    calc Complex.abs k * (Real.cos (Complex.arg k) * Real.cos alpha +
          Real.sin (Complex.arg k) * Real.sin alpha)
        = (Complex.abs k * Real.cos (Complex.arg k)) * Real.cos alpha +
          (Complex.abs k * Real.sin (Complex.arg k)) * Real.sin alpha := by ring
      _ = k.re * Real.cos alpha + k.im * Real.sin alpha := by rw [h1, h2]
  have hs : Complex.abs k * Real.sin (Complex.arg k - alpha) =
      k.im * Real.cos alpha - k.re * Real.sin alpha := by
    rw [Real.sin_sub]
    have h1 := abs_mul_cos_arg k hk
    have h2 := abs_mul_sin_arg k
    calc Complex.abs k * (Real.sin (Complex.arg k) * Real.cos alpha -
          Real.cos (Complex.arg k) * Real.sin alpha)
        = (Complex.abs k * Real.sin (Complex.arg k)) * Real.cos alpha -
          (Complex.abs k * Real.cos (Complex.arg k)) * Real.sin alpha := by ring
      _ = k.im * Real.cos alpha - k.re * Real.sin alpha := by rw [h1, h2]
  rw [ellipse_a]
  rw [show Complex.abs k = Real.sqrt ((Complex.abs k) ^ 2) from
    (Real.sqrt_sq (Complex.abs.nonneg k)).symm]
  rw [← Real.sqrt_mul (by positivity)]
  congr 1
  calc (A ^ 2 * Real.cos (Complex.arg k - alpha) ^ 2 +
        B ^ 2 * Real.sin (Complex.arg k - alpha) ^ 2) * Complex.abs k ^ 2
      = A ^ 2 * (Complex.abs k * Real.cos (Complex.arg k - alpha)) ^ 2 +
        B ^ 2 * (Complex.abs k * Real.sin (Complex.arg k - alpha)) ^ 2 := by ring
    _ = A ^ 2 * (k.re * Real.cos alpha + k.im * Real.sin alpha) ^ 2 +
        B ^ 2 * (k.im * Real.cos alpha - k.re * Real.sin alpha) ^ 2 := by rw [hc, hs]

/-- _kspace_ellipse agrees with its coordinate form. -/
lemma kspace_ellipse_eq_coord (k : ℂ) (e : Ellipse) :
    kspace_ellipse k e = kspace_ellipse_coord k e := by
  by_cases hk : Complex.abs k ≤ 1e-8
  · rw [kspace_ellipse, kspace_ellipse_coord, if_pos hk, if_pos hk]
  · have hk0 : k ≠ 0 := by
      intro h
      exact hk (h ▸ abs_zero_le_tol)
    rw [kspace_ellipse, kspace_ellipse_coord, if_neg hk, if_neg hk]
    rw [ellipse_a_mul_abs e.A e.B e.alpha k hk0]
    have hrot : Complex.abs (⟨e.xc, e.yc⟩ : ℂ) * Complex.abs k *
        Real.cos (Complex.arg (⟨e.xc, e.yc⟩ : ℂ) - Complex.arg k) =
        e.xc * k.re + e.yc * k.im := by
      exact abs_mul_abs_mul_cos_arg_sub (⟨e.xc, e.yc⟩ : ℂ) k hk0
    have hexp : -Complex.I * ((tau : ℝ) : ℂ) * ((Complex.abs k : ℝ) : ℂ) *
        ((Complex.abs (⟨e.xc, e.yc⟩ : ℂ) : ℝ) : ℂ) *
        ((Real.cos (Complex.arg (⟨e.xc, e.yc⟩ : ℂ) - Complex.arg k) : ℝ) : ℂ) =
        -Complex.I * ((tau : ℝ) : ℂ) * ((e.xc * k.re + e.yc * k.im : ℝ) : ℂ) := by
      rw [← hrot]
      push_cast
      ring
    rw [hexp]

/-- Joint genuine rotation of one ellipse and one sample leaves the
single-ellipse spectrum unchanged. -/
lemma kspace_ellipse_rotate (phi : ℝ) (k : ℂ) (e : Ellipse) :
    kspace_ellipse (rotate_sample phi k) (rotate_ellipse phi e) =
      kspace_ellipse k e := by
  have habs : Complex.abs (rotate_sample phi k) = Complex.abs k := by
    rw [rotate_sample, map_mul, Complex.abs_exp_ofReal_mul_I, one_mul]
  have hre : (rotate_sample phi k).re = k.re * Real.cos phi - k.im * Real.sin phi := by
    rw [rotate_sample, Complex.mul_re, Complex.exp_ofReal_mul_I_re,
      Complex.exp_ofReal_mul_I_im]
    ring
  have him : (rotate_sample phi k).im = k.re * Real.sin phi + k.im * Real.cos phi := by
    rw [rotate_sample, Complex.mul_im, Complex.exp_ofReal_mul_I_re,
      Complex.exp_ofReal_mul_I_im]
    ring
  by_cases hk : Complex.abs k ≤ 1e-8
  · rw [kspace_ellipse, if_pos (by rw [habs]; exact hk), kspace_ellipse, if_pos hk]
    rfl
  · rw [kspace_ellipse_eq_coord, kspace_ellipse_eq_coord, kspace_ellipse_coord,
      kspace_ellipse_coord, if_neg (by rw [habs]; exact hk), if_neg hk]
    have hphase : (rotate_ellipse phi e).xc * (rotate_sample phi k).re +
        (rotate_ellipse phi e).yc * (rotate_sample phi k).im =
        e.xc * k.re + e.yc * k.im := by
      rw [hre, him]
      simp only [rotate_ellipse]
      linear_combination (e.xc * k.re + e.yc * k.im) * Real.sin_sq_add_cos_sq phi
    have hax : (rotate_sample phi k).re * Real.cos (rotate_ellipse phi e).alpha +
        (rotate_sample phi k).im * Real.sin (rotate_ellipse phi e).alpha =
        k.re * Real.cos e.alpha + k.im * Real.sin e.alpha := by
      rw [hre, him]
      simp only [rotate_ellipse]
      rw [Real.cos_add, Real.sin_add]
      linear_combination (k.re * Real.cos e.alpha + k.im * Real.sin e.alpha) *
        Real.sin_sq_add_cos_sq phi
    have hax2 : (rotate_sample phi k).im * Real.cos (rotate_ellipse phi e).alpha -
        (rotate_sample phi k).re * Real.sin (rotate_ellipse phi e).alpha =
        k.im * Real.cos e.alpha - k.re * Real.sin e.alpha := by
      rw [hre, him]
      simp only [rotate_ellipse]
      rw [Real.cos_add, Real.sin_add]
      linear_combination (k.im * Real.cos e.alpha - k.re * Real.sin e.alpha) *
        Real.sin_sq_add_cos_sq phi
    rw [hphase, hax, hax2]
    simp only [rotate_ellipse]

lemma exp_pi_div_two_mul_I :
    Complex.exp (((Real.pi / 2 : ℝ) : ℂ) * Complex.I) = Complex.I := by
  rw [Complex.exp_mul_I, ← Complex.ofReal_cos, ← Complex.ofReal_sin,
    Real.cos_pi_div_two, Real.sin_pi_div_two]
  simp

lemma exp_neg_pi_div_two_mul_I :
    Complex.exp (((-(Real.pi / 2) : ℝ) : ℂ) * Complex.I) = -Complex.I := by
  rw [Complex.exp_mul_I, ← Complex.ofReal_cos, ← Complex.ofReal_sin,
    Real.cos_neg, Real.sin_neg, Real.cos_pi_div_two, Real.sin_pi_div_two]
  simp

/-- Value of the small centered disk ellipse, rotation angle pi, at
the sample k = -1. -/
lemma kspace_ellipse_neg_one_eval :
    kspace_ellipse (-1 : ℂ) ⟨1, 1 / 100, 1 / 100, 1 / 4, 0, Real.pi⟩ =
      Complex.I * ((j1 (Real.pi / 50) / 100 : ℝ) : ℂ) := by
  have habs : ¬(Complex.abs (-1 : ℂ) ≤ 1e-8) := by
    rw [show Complex.abs (-1 : ℂ) = 1 by simp]
    norm_num
  rw [kspace_ellipse_eq_coord, kspace_ellipse_coord, if_neg habs]
  dsimp only
  simp only [Complex.neg_re, Complex.one_re, Complex.neg_im, Complex.one_im, neg_zero]
  have hs : Real.sqrt ((1 / 100 : ℝ) ^ 2 * (-1 * Real.cos Real.pi + 0 * Real.sin Real.pi) ^ 2 +
      (1 / 100 : ℝ) ^ 2 * (0 * Real.cos Real.pi - -1 * Real.sin Real.pi) ^ 2) = 1 / 100 := by
    rw [Real.cos_pi, Real.sin_pi]
    rw [show ((1 / 100 : ℝ) ^ 2 * (-1 * -1 + 0 * 0) ^ 2 +
        (1 / 100 : ℝ) ^ 2 * (0 * -1 - -1 * 0) ^ 2) = (1 / 100 : ℝ) ^ 2 by ring]
    exact Real.sqrt_sq (by norm_num)
  rw [hs]
  rw [show tau * (1 / 100 : ℝ) = Real.pi / 50 by rw [tau]; ring]
  rw [show -Complex.I * ((tau : ℝ) : ℂ) * ((1 / 4 * -1 + 0 * 0 : ℝ) : ℂ) =
      ((Real.pi / 2 : ℝ) : ℂ) * Complex.I by rw [tau]; push_cast; ring]
  rw [exp_pi_div_two_mul_I]
  push_cast
  ring

/-- Value of the same disk with rotation angle 0 at the sample k = 1. -/
lemma kspace_ellipse_one_eval :
    kspace_ellipse (1 : ℂ) ⟨1, 1 / 100, 1 / 100, 1 / 4, 0, 0⟩ =
      -Complex.I * ((j1 (Real.pi / 50) / 100 : ℝ) : ℂ) := by
  have habs : ¬(Complex.abs (1 : ℂ) ≤ 1e-8) := by
    rw [map_one]
    norm_num
  rw [kspace_ellipse_eq_coord, kspace_ellipse_coord, if_neg habs]
  dsimp only
  simp only [Complex.one_re, Complex.one_im]
  have hs : Real.sqrt ((1 / 100 : ℝ) ^ 2 * (1 * Real.cos 0 + 0 * Real.sin 0) ^ 2 +
      (1 / 100 : ℝ) ^ 2 * (0 * Real.cos 0 - 1 * Real.sin 0) ^ 2) = 1 / 100 := by
    rw [Real.cos_zero, Real.sin_zero]
    rw [show ((1 / 100 : ℝ) ^ 2 * (1 * 1 + 0 * 0) ^ 2 +
        (1 / 100 : ℝ) ^ 2 * (0 * 1 - 1 * 0) ^ 2) = (1 / 100 : ℝ) ^ 2 by ring]
    exact Real.sqrt_sq (by norm_num)
  rw [hs]
  rw [show tau * (1 / 100 : ℝ) = Real.pi / 50 by rw [tau]; ring]
  rw [show -Complex.I * ((tau : ℝ) : ℂ) * ((1 / 4 * 1 + 0 * 0 : ℝ) : ℂ) =
      ((-(Real.pi / 2) : ℝ) : ℂ) * Complex.I by rw [tau]; push_cast; ring]
  rw [exp_neg_pi_div_two_mul_I]
  push_cast
  ring

lemma abs_mk (a b : ℝ) : Complex.abs ⟨a, b⟩ = Real.sqrt (a ^ 2 + b ^ 2) := by
  rw [Complex.abs_apply, Complex.normSq_mk]
  congr 1
  ring

lemma rmat_transpose (theta : ℝ) :
    (Rmat theta).transpose =
      !![Real.cos theta, Real.sin theta; -Real.sin theta, Real.cos theta] := by
  funext i j
  fin_cases i <;> fin_cases j <;> simp [Rmat, Matrix.transpose_apply]

/-- The matrix pipeline Dmat Rmat^T applied to a shifted frequency, in
scalars. -/
lemma diag_mul_rmat_transpose_mulVec (d0 d1 theta x y : ℝ) :
    (Matrix.diagonal ![d0, d1] * (Rmat theta).transpose).mulVec ![x, y] =
      ![d0 * (Real.cos theta * x + Real.sin theta * y),
        d1 * (-Real.sin theta * x + Real.cos theta * y)] := by
  rw [rmat_transpose]
  funext i
  fin_cases i <;>
    simp [Matrix.mulVec, Matrix.dotProduct, Matrix.mul_apply,
      Fin.sum_univ_two, Matrix.diagonal] <;>
    ring

/-- _kspace_ellipse_sens in fully scalar form: matrix product,
determinant and complex modulus unfolded; this is the corrected
formula of claim C2 (D = diag((B, A)/2), half-integer basis grid). -/
lemma kspace_ellipse_sens_eq_corrected {N : ℕ} (k : ℂ) (xc yc rho A B theta : ℝ)
    (coeffRow : Fin N → ℂ) :
    kspace_ellipse_sens k xc yc rho A B theta coeffRow =
      spec_sens_contribution_corrected k xc yc rho A B theta coeffRow := by
  rw [kspace_ellipse_sens, MRDataEllipseSinusoidal, spec_sens_contribution_corrected]
  simp only [diag_mul_rmat_transpose_mulVec, Pi.smul_apply, smul_eq_mul,
    Matrix.cons_val_zero, Matrix.cons_val_one, Matrix.head_cons, abs_mk,
    Matrix.det_diagonal, Fin.prod_univ_two]
  ring

/-- The Taylor branch of the guarded kernel fires strictly below the
1e-10 tolerance. -/
lemma besselG_taylor (m : ℝ) (h0 : 0 ≤ m) (h1 : m < 1e-10) :
    besselG m = 0.5 * (1 - (m / 2) ^ 2 / 2) := by
  rw [besselG, if_neg]
  rw [abs_of_nonneg h0]
  linarith

/-- Code-side value of the C2 counterexample instance: one coefficient
(N = 1, so L = 1 and the only basis frequency is 0), unit coefficient,
sample k = 1e-12, centered ellipse with A = 2, B = 1, no rotation. -/
lemma sens_code_eval :
    kspace_ellipse_sens ((1e-12 : ℝ) : ℂ) 0 0 1 2 1 0 ((fun _ => 1) : Fin 1 → ℂ) =
      ((tau * (1 / 2) * besselG (Real.pi * 1e-12) : ℝ) : ℂ) := by
  have htau : 0 < tau := by rw [tau]; positivity
  rw [kspace_ellipse_sens_eq_corrected, spec_sens_contribution_corrected]
  have hg : gridVal 1 0 = 0 := by rw [gridVal]; norm_num
  simp only [Nat.sqrt_one, Fin.sum_univ_one, Fin.val_zero, Nat.zero_div, Nat.zero_mod,
    hg, Complex.ofReal_re, Complex.ofReal_im, Real.cos_zero, Real.sin_zero,
    zero_div, zero_add, add_zero, mul_zero, zero_mul, mul_one, one_mul, neg_zero,
    Complex.ofReal_zero, Complex.exp_zero]
  rw [show Real.sqrt ((-tau * (1 / 2 * 1e-12)) ^ 2 + (0 : ℝ) ^ 2) = Real.pi * 1e-12 by
    rw [show ((-tau * (1 / 2 * 1e-12)) ^ 2 + (0 : ℝ) ^ 2) = (tau * (1 / 2 * 1e-12)) ^ 2 by
      ring]
    rw [Real.sqrt_sq (by positivity)]
    rw [tau]; ring]
  push_cast
  ring

/-- Spec-side value of the same instance under the claim C2 formula:
identical except that D = diag(A/2, B/2) puts A/2 = 1 first, doubling
the Bessel argument. -/
lemma sens_spec_eval :
    spec_sens_contribution ((1e-12 : ℝ) : ℂ) 0 0 1 2 1 0 ((fun _ => 1) : Fin 1 → ℂ) =
      ((tau * (1 / 2) * besselG (2 * Real.pi * 1e-12) : ℝ) : ℂ) := by
  have htau : 0 < tau := by rw [tau]; positivity
  rw [spec_sens_contribution]
  have hg : gridVal 1 0 = 0 := by rw [gridVal]; norm_num
  simp only [Nat.sqrt_one, Fin.sum_univ_one, Fin.val_zero, Nat.zero_div, Nat.zero_mod,
    hg, Complex.ofReal_re, Complex.ofReal_im, Real.cos_zero, Real.sin_zero,
    zero_div, zero_add, add_zero, mul_zero, zero_mul, mul_one, one_mul, neg_zero,
    Complex.ofReal_zero, Complex.exp_zero]
  rw [show Real.sqrt ((-tau * (2 / 2) * 1e-12) ^ 2 + (0 : ℝ) ^ 2) = 2 * Real.pi * 1e-12 by
    rw [show ((-tau * (2 / 2) * 1e-12) ^ 2 + (0 : ℝ) ^ 2) = (tau * 1e-12) ^ 2 by ring]
    rw [Real.sqrt_sq (by positivity)]
    rw [tau]]
  push_cast
  ring

/-! ## Claim theorems -/

/-- C1, counterexample: the single-disk table {density 1, semi-axes
(0.5, 0.5), centered, unrotated} sampled at k = 0 does not return
1 * 0.5 * 0.5 * 2 pi; the code returns .5 * tau * rho * A * B, which is
pi / 4, half the claimed value. -/
theorem C1_origin_counterexample :
    kspace_ellipse_sum [⟨1, 0.5, 0.5, 0, 0, 0⟩] 0 ≠
      ((1 * 0.5 * 0.5 * (2 * Real.pi) : ℝ) : ℂ) := by
  intro h
  simp only [kspace_ellipse_sum, List.map_cons, List.map_nil, List.sum_cons,
    List.sum_nil, add_zero, kspace_ellipse_zero] at h
  rw [Complex.ofReal_inj] at h
  rw [tau] at h
  nlinarith [Real.pi_pos]

/-- C1, amended: for every single-ellipse table, the no-coil synthesis
at k = 0 returns rho * A * B * pi (density times ellipse area, half
the 2 pi factor claimed), computed through the guarded branch
ret[zero] = .5 * tau * rho * A * B of _kspace_ellipse rather than by
direct division. -/
theorem C1_origin_amended (rho A B xc yc alpha : ℝ) :
    kspace_ellipse_sum [⟨rho, A, B, xc, yc, alpha⟩] 0 =
      ((rho * A * B * Real.pi : ℝ) : ℂ) := by
  simp only [kspace_ellipse_sum, List.map_cons, List.map_nil, List.sum_cons,
    List.sum_nil, add_zero, kspace_ellipse_zero]
  rw [Complex.ofReal_inj, tau]
  ring

/-- C3: synthesizing two ellipse tables separately and summing the
outputs elementwise equals synthesizing their concatenation as one
table, at every list of sample coordinates. -/
theorem C3_linearity (E1 E2 : List Ellipse) (ks : List ℂ) :
    ks.map (kspace_ellipse_sum (E1 ++ E2)) =
      List.zipWith (fun a b => a + b)
        (ks.map (kspace_ellipse_sum E1)) (ks.map (kspace_ellipse_sum E2)) := by
  induction ks with
  | nil => simp
  | cons k ks ih =>
    simp only [List.map_cons, List.zipWith_cons_cons, kspace_ellipse_sum_append]
    exact congrArg _ ih

/-- C4: a table holding one ellipse of positive density rho and a
second ellipse of identical geometry with density -rho synthesizes to
the zero spectrum at every sample (exact cancellation in the exact
real model). -/
theorem C4_negative_density_cancellation (rho A B xc yc alpha : ℝ)
    (ks : List ℂ) (h : 0 < rho) :
    ks.map (kspace_ellipse_sum
        [⟨rho, A, B, xc, yc, alpha⟩, ⟨-rho, A, B, xc, yc, alpha⟩]) =
      ks.map (fun k => (0 : ℂ)) := by
  induction ks with
  | nil => simp
  | cons k ks ih =>
    simp only [List.map_cons]
    rw [ih]
    simp [kspace_ellipse_sum, kspace_ellipse_neg_rho]

/-- Witness for C4 at rho = 1, unit disk geometry, sample list [0]. -/
theorem C4_negative_density_cancellation_witness :
    (0 : ℝ) < 1 ∧
      List.map (kspace_ellipse_sum [⟨1, 1, 1, 0, 0, 0⟩, ⟨-1, 1, 1, 0, 0, 0⟩]) [0] =
        List.map (fun k => (0 : ℂ)) [0] :=
  ⟨by norm_num, C4_negative_density_cancellation 1 1 1 0 0 0 [0] (by norm_num)⟩

/-- C6: whenever the kx and ky coordinate lists have different sizes,
the synthesizer returns the shape error; the check is the first thing
the code does (here, the outermost branch), so nothing is computed. -/
theorem C6_shape_mismatch (kx ky : List ℝ) (E : List Ellipse)
    (h : kx.length ≠ ky.length) :
    kspace_shepp_logan kx ky E = Except.error SynthError.shapeError := by
  rw [kspace_shepp_logan, if_neg h]

/-- Witness for C6 at kx = [0], ky = [] (sizes 1 and 0). -/
theorem C6_shape_mismatch_witness :
    ([0] : List ℝ).length ≠ ([] : List ℝ).length ∧
      kspace_shepp_logan [0] [] [] = Except.error SynthError.shapeError :=
  ⟨by simp, C6_shape_mismatch [0] [] [] (by simp)⟩

/-- C7: with matching coordinate lists, requesting more coils than the
capacity maxCoil fails with the capacity error before any k-space
value is computed, and requesting at most maxCoil coils succeeds. -/
theorem C7_capacity_check (kx ky : List ℝ) (E : List Ellipse) (numCoeff : ℕ)
    (ncoil maxCoil : ℕ) (sens_coeffs : ℕ → Fin numCoeff → ℂ)
    (hshape : kx.length = ky.length) :
    (maxCoil < ncoil →
      kspace_shepp_logan_coils kx ky E ncoil maxCoil sens_coeffs =
        Except.error SynthError.capacityError) ∧
    (ncoil ≤ maxCoil →
      ∃ v, kspace_shepp_logan_coils kx ky E ncoil maxCoil sens_coeffs =
        Except.ok v) := by
  constructor
  · intro hc
    rw [kspace_shepp_logan_coils, if_pos hshape, if_neg (by omega)]
  · intro hc
    exact ⟨_, by rw [kspace_shepp_logan_coils, if_pos hshape, if_pos hc]⟩

/-- Witness for C7: capacity 4, requesting 5 coils errors and
requesting 3 coils succeeds. -/
theorem C7_capacity_check_witness :
    (kspace_shepp_logan_coils [0] [0] [] 5 4 ((fun _ _ => 1) : ℕ → Fin 1 → ℂ) =
      Except.error SynthError.capacityError) ∧
    (∃ v, kspace_shepp_logan_coils [0] [0] [] 3 4 ((fun _ _ => 1) : ℕ → Fin 1 → ℂ) =
      Except.ok v) :=
  ⟨(C7_capacity_check [0] [0] [] 1 5 4 (fun _ _ => 1) rfl).1 (by norm_num),
   (C7_capacity_check [0] [0] [] 1 3 4 (fun _ _ => 1) rfl).2 (by norm_num)⟩

/-- C9, counterexample: a table whose first semi-axis is zero is
accepted by the synthesizer, which returns a value (the zero spectrum
at the origin sample) instead of failing with the domain error the
claim requires. -/
theorem C9_degenerate_axis_counterexample :
    kspace_shepp_logan [0] [0] [⟨1, 0, 0.5, 0, 0, 0⟩] = Except.ok [(0 : ℂ)] ∧
      kspace_shepp_logan [0] [0] [⟨1, 0, 0.5, 0, 0, 0⟩] ≠
        Except.error SynthError.domainError := by
  have hz : ((⟨(0 : ℝ), (0 : ℝ)⟩ : ℂ)) = (0 : ℂ) := by
    apply Complex.ext <;> simp
  have h1 : kspace_shepp_logan [0] [0] [⟨1, 0, 0.5, 0, 0, 0⟩] = Except.ok [(0 : ℂ)] := by
    rw [kspace_shepp_logan, if_pos rfl]
    simp only [List.zipWith_cons_cons, List.zipWith_nil_right, List.map_cons,
      List.map_nil, hz]
    rw [kspace_ellipse_sum]
    simp only [List.map_cons, List.map_nil, List.sum_cons, List.sum_nil, add_zero,
      kspace_ellipse_zero]
    norm_num
  exact ⟨h1, by rw [h1]; simp⟩

/-- C9, amended: the code performs no semi-axis validation at all:
for any matching coordinate lists and any ellipse table, including
tables with zero or negative semi-axes, the synthesizer returns a
value, never a domain error. -/
theorem C9_no_domain_validation (kx ky : List ℝ) (E : List Ellipse)
    (h : kx.length = ky.length) :
    ∃ v, kspace_shepp_logan kx ky E = Except.ok v :=
  ⟨_, by rw [kspace_shepp_logan, if_pos h]⟩

/-- Witness for C9 on a degenerate (zero semi-axis) table. -/
theorem C9_no_domain_validation_witness :
    ([0] : List ℝ).length = ([0] : List ℝ).length ∧
      ∃ v, kspace_shepp_logan [0] [0] [⟨1, 0, 0.5, 0, 0, 1⟩] = Except.ok v :=
  ⟨rfl, C9_no_domain_validation [0] [0] [⟨1, 0, 0.5, 0, 0, 1⟩] rfl⟩

/-- C8, counterexample: the 2D rasterizer accepts a 7-column table
(columns 0-5 plus one spurious extra column) and computes a pixel
value with it, instead of failing with a shape error before any
numeric work as the claim requires: at the center pixel of a 3 x 3
grid the single ellipse of the malformed table contains the point and
the value 5 is returned. -/
theorem C8_extra_columns_counterexample :
    ct_shepp_logan_2d_pixel 3 3 [[5, 1, 1, 0, 0, 0, 99]] 1 1 = Except.ok 5 := by
  rw [ct_shepp_logan_2d_pixel, if_pos (by simp)]
  simp only [List.map_cons, List.map_nil, List.sum_cons, List.sum_nil, add_zero,
    show List.getD [(5 : ℝ), 1, 1, 0, 0, 0, 99] 0 0 = 5 from rfl,
    show List.getD [(5 : ℝ), 1, 1, 0, 0, 0, 99] 1 0 = 1 from rfl,
    show List.getD [(5 : ℝ), 1, 1, 0, 0, 0, 99] 2 0 = 1 from rfl,
    show List.getD [(5 : ℝ), 1, 1, 0, 0, 0, 99] 3 0 = 0 from rfl,
    show List.getD [(5 : ℝ), 1, 1, 0, 0, 0, 99] 4 0 = 0 from rfl,
    show List.getD [(5 : ℝ), 1, 1, 0, 0, 0, 99] 5 0 = 0 from rfl]
  rw [if_pos (by norm_num [Real.cos_zero, Real.sin_zero])]

/-- C8, amended: the code performs no column-count validation: any
table whose rows all have at least 6 entries is accepted (a value is
returned, never a shape error), and the returned value depends only on
the first 6 columns of every row - columns beyond the sixth are
ignored. -/
theorem C8_no_column_validation (M N : ℕ) (E : List (List ℝ)) (i j : ℕ)
    (h : ∀ r ∈ E, 6 ≤ r.length) :
    (∃ v, ct_shepp_logan_2d_pixel M N E i j = Except.ok v) ∧
      ct_shepp_logan_2d_pixel M N E i j =
        ct_shepp_logan_2d_pixel M N (E.map (fun r => r.take 6)) i j := by
  have hmap : ∀ r ∈ E.map (fun r => r.take 6), 6 ≤ r.length := by
    intro r hr
    rcases List.mem_map.mp hr with ⟨s, hs, rfl⟩
    rw [List.length_take]
    exact le_min le_rfl (h s hs)
  refine ⟨⟨_, by rw [ct_shepp_logan_2d_pixel, if_pos h]⟩, ?_⟩
  rw [ct_shepp_logan_2d_pixel, ct_shepp_logan_2d_pixel, if_pos h, if_pos hmap]
  congr 1
  rw [List.map_map]
  refine congrArg List.sum ?_
  apply List.map_congr_left
  intro r hr
  have hg : ∀ jj : ℕ, jj < 6 → (r.take 6).getD jj 0 = r.getD jj 0 := by
    intro jj hjj
    rw [List.getD_eq_getElem?_getD, List.getD_eq_getElem?_getD,
      List.getElem?_take_of_lt hjj]
  simp only [Function.comp_apply, hg 0 (by norm_num), hg 1 (by norm_num),
    hg 2 (by norm_num), hg 3 (by norm_num), hg 4 (by norm_num), hg 5 (by norm_num)]

/-- Witness for C8 on the 7-column table at pixel (0, 0). -/
theorem C8_no_column_validation_witness :
    (∀ r ∈ [[(5 : ℝ), 1, 1, 0, 0, 0, 99]], 6 ≤ r.length) ∧
      ((∃ v, ct_shepp_logan_2d_pixel 3 3 [[(5 : ℝ), 1, 1, 0, 0, 0, 99]] 0 0 =
          Except.ok v) ∧
        ct_shepp_logan_2d_pixel 3 3 [[(5 : ℝ), 1, 1, 0, 0, 0, 99]] 0 0 =
          ct_shepp_logan_2d_pixel 3 3
            ([[(5 : ℝ), 1, 1, 0, 0, 0, 99]].map (fun r => r.take 6)) 0 0) :=
  ⟨by simp, C8_no_column_validation 3 3 [[(5 : ℝ), 1, 1, 0, 0, 0, 99]] 0 0 (by simp)⟩

/-- C10: in both the 2D and the 3D presets, the modified table agrees
with the original table on every column other than column 0 (the
grey/density column); the geometry columns are identical. -/
theorem C10_modified_presets_geometry (i : Fin 10) (j2 : Fin 6) (j3 : Fin 8)
    (h2 : j2 ≠ 0) (h3 : j3 ≠ 0) :
    modified_shepp_logan_params_2d i j2 = shepp_logan_params_2d i j2 ∧
      modified_shepp_logan_params_3d i j3 = shepp_logan_params_3d i j3 := by
  constructor
  · rw [modified_shepp_logan_params_2d, if_neg h2]
  · rw [modified_shepp_logan_params_3d, if_neg h3]

/-- Witness for C10 at row 0, column 1 of both tables. -/
theorem C10_modified_presets_geometry_witness :
    (1 : Fin 6) ≠ 0 ∧ (1 : Fin 8) ≠ 0 ∧
      (modified_shepp_logan_params_2d 0 1 = shepp_logan_params_2d 0 1 ∧
        modified_shepp_logan_params_3d 0 1 = shepp_logan_params_3d 0 1) :=
  ⟨by decide, by decide, C10_modified_presets_geometry 0 1 1 (by decide) (by decide)⟩

/-- C5, counterexample: adding phi to the rotation attribute of every
ellipse while rotating the samples by phi (without rotating the
ellipse centers) changes the output.  With the off-center disk
{rho 1, semi-axes (1/100, 1/100), center (1/4, 0), rotation 0},
phi = pi and the sample k = 1, the transformed synthesis gives
+1j c and the original gives -1j c with c = j1(pi/50)/100 > 0. -/
theorem C5_rotation_attr_counterexample :
    kspace_ellipse_sum
        (([⟨1, 1 / 100, 1 / 100, 1 / 4, 0, 0⟩] : List Ellipse).map
          (rotate_alpha_only Real.pi))
        (rotate_sample Real.pi 1) ≠
      kspace_ellipse_sum [⟨1, 1 / 100, 1 / 100, 1 / 4, 0, 0⟩] 1 := by
  intro h
  have hE : ([⟨1, 1 / 100, 1 / 100, 1 / 4, 0, 0⟩] : List Ellipse).map
      (rotate_alpha_only Real.pi) = [⟨1, 1 / 100, 1 / 100, 1 / 4, 0, Real.pi⟩] := by
    simp [rotate_alpha_only]
  have hk1 : rotate_sample Real.pi 1 = (-1 : ℂ) := by
    rw [rotate_sample, mul_one, Complex.exp_pi_mul_I]
  rw [hE, hk1, kspace_ellipse_sum, kspace_ellipse_sum] at h
  simp only [List.map_cons, List.map_nil, List.sum_cons, List.sum_nil, add_zero] at h
  rw [kspace_ellipse_neg_one_eval, kspace_ellipse_one_eval] at h
  have hj : (0 : ℝ) < j1 (Real.pi / 50) :=
    j1_pos _ (by positivity) (by linarith [Real.pi_le_four])
  have h2 : (2 * Complex.I) * ((j1 (Real.pi / 50) / 100 : ℝ) : ℂ) = 0 := by
    linear_combination h
  rcases mul_eq_zero.mp h2 with h3 | h3
  · norm_num [Complex.ext_iff] at h3
  · rw [Complex.ofReal_eq_zero] at h3
    linarith

/-- C5, amended: genuinely rotating each ellipse by phi (advancing its
rotation angle by phi and rotating its center by phi) and rotating all
sample coordinates by the same phi leaves the no-coil synthesis output
unchanged at corresponding samples. -/
theorem C5_joint_rotation_amended (E : List Ellipse) (ks : List ℂ) (phi : ℝ) :
    (ks.map (rotate_sample phi)).map
        (kspace_ellipse_sum (E.map (rotate_ellipse phi))) =
      ks.map (kspace_ellipse_sum E) := by
  rw [List.map_map]
  apply List.map_congr_left
  intro k hk
  simp only [Function.comp_apply]
  rw [kspace_ellipse_sum, kspace_ellipse_sum, List.map_map]
  refine congrArg List.sum ?_
  apply List.map_congr_left
  intro e he
  simp only [Function.comp_apply]
  exact kspace_ellipse_rotate phi k e

/-- C2, counterexample: at the instance with one basis coefficient
(N = 1), unit coefficient, sample k = 1e-12, center (0,0), density 1,
semi-axes A = 2, B = 1, rotation 0, the code value differs from the
formula of the claim: the code builds D = diag(B/2, A/2) = diag(1/2, 1)
while the claim prescribes diag(A/2, B/2) = diag(1, 1/2), so the
Bessel-kernel argument of the code is pi e-12 but the claim gives
2 pi e-12, and the two Taylor-branch values differ. -/
theorem C2_sens_formula_counterexample :
    kspace_ellipse_sens ((1e-12 : ℝ) : ℂ) 0 0 1 2 1 0 ((fun _ => 1) : Fin 1 → ℂ) ≠
      spec_sens_contribution ((1e-12 : ℝ) : ℂ) 0 0 1 2 1 0
        ((fun _ => 1) : Fin 1 → ℂ) := by
  rw [sens_code_eval, sens_spec_eval]
  intro h
  rw [Complex.ofReal_inj] at h
  have hb1 : besselG (Real.pi * 1e-12) = 0.5 * (1 - (Real.pi * 1e-12 / 2) ^ 2 / 2) :=
    besselG_taylor _ (by positivity) (by linarith [Real.pi_lt_d2])
  have hb2 : besselG (2 * Real.pi * 1e-12) =
      0.5 * (1 - (2 * Real.pi * 1e-12 / 2) ^ 2 / 2) :=
    besselG_taylor _ (by positivity) (by linarith [Real.pi_lt_d2])
  rw [hb1, hb2, tau] at h
  nlinarith [Real.pi_gt_three, Real.pi_pos,
    mul_pos (mul_pos Real.pi_pos Real.pi_pos) Real.pi_pos]

/-- C2, amended: the per-coil contribution of one ellipse equals
rho 2 pi det(D) times the sum over basis frequencies of
coeff_n exp(2 pi 1j (xc shifted_x + yc shifted_y)) G(abs w),
w = -2 pi D R^T shifted, exactly as claimed EXCEPT that
D = diag(semi-axes/2) takes the semi-axes in the order (B, A), and the
basis frequencies are the centered integer grid divided by 2
(half-integer frequencies), shifted = basis/2 + k. -/
theorem C2_sens_formula_amended {N : ℕ} (k : ℂ) (xc yc rho A B theta : ℝ)
    (coeffRow : Fin N → ℂ) :
    kspace_ellipse_sens k xc yc rho A B theta coeffRow =
      spec_sens_contribution_corrected k xc yc rho A B theta coeffRow := by
  rw [kspace_ellipse_sens_eq_corrected]

end Phantominator
